import Mathlib

/-!
Verification of the CLStarter continual-learning core.

Shallow embedding of the repository's Python sources:
  * `model/iCaRL.py`        — incremental model state (`iCaRL` class);
  * `utils/data/cifar100.py` — task-sequence generation (`get_cifar100_tasks`);
  * `src/main.py`            — task learner / continual-learning evaluator.

Python exceptions are modelled by `Except PyErr` (or an `Option PyErr`
component when the state at raise time matters); in-place mutation is
modelled by explicit state passing; torch weight tensors by rectangular
lists over an abstract entry type (the claims under study never compute
with the entries, only move them).
-/

/-- The Python exceptions the embedded code can raise. -/
inductive PyErr : Type where
  /-- `IndexError`, e.g. `weight_vectors[-2]` on a short list. -/
  | indexError : PyErr
  /-- `RuntimeError`, e.g. a torch shape mismatch in slice assignment. -/
  | runtimeError : PyErr
  /-- A failure raised by the metrics/logging sink (tensorboard writer or logger). -/
  | sinkError : PyErr
  deriving DecidableEq, Repr

/-- `torch.nn.Linear(in_features, out_features, bias=False)`: a weight matrix of
`out_features` rows, each of width `in_features`, over an abstract entry type `α`
(the embedded operations only copy entries, never compute with them). -/
structure Linear (α : Type) : Type where
  in_features : Nat
  out_features : Nat
  weight : List (List α)
  deriving DecidableEq, Repr

/-- The weight matrix a fresh `nn.Linear(inF, outF)` holds: `outF` rows of width
`inF`, with entries given by the (random) initializer `init`, which we take as a
parameter since torch draws them from an RNG. -/
def mkLinearWeight (outF inF : Nat) (init : Nat → Nat → α) : List (List α) :=
  (List.range outF).map fun r => (List.range inF).map fun c => init r c

/-- Torch slice assignment `dst[:k, :] = src[:, :]` on 2-D weight tensors:
succeeds (returning the updated matrix) when the two slice shapes agree, and
raises (`none`) otherwise.  `dst[:k]` clamps to `min k dst.length` rows, exactly
as Python slicing does. -/
def sliceAssignRows (dst src : List (List α)) (k : Nat) : Option (List (List α)) :=
  if src.length = min k dst.length ∧
      src.map List.length = (dst.take (min k dst.length)).map List.length then
    some (src ++ dst.drop (min k dst.length))
  else
    none

/-- The state of `model/iCaRL.py`'s `iCaRL` module.  `F` is the (opaque) type of
feature extractors (`ResNet`), `α` the entry type of weight tensors.
`exemplar_means` is an insertion-ordered association list, matching a Python
`dict`'s iteration order; prototype vectors are rationals (exact stand-ins for
the float tensors). -/
structure ICaRL (F : Type) (α : Type) : Type where
  feature_extractor : Option F
  previous_feature_extractor : Option F
  weight_vectors : List (Linear α)
  current_weight_vectors : Option (Linear α)
  exemplar_means : List (String × List ℚ)
  current_task : Option (List String)
  learned_classes : List String
  feature_dim : Nat
  deriving DecidableEq, Repr

/-- `iCaRL.__init__`: live extractor present, no previous snapshot, no weight
vectors, no exemplar means, nothing learned. -/
def ICaRL.init (f0 : F) (feature_dim : Nat) : ICaRL F α :=
  { feature_extractor := some f0
    previous_feature_extractor := none
    weight_vectors := []
    current_weight_vectors := none
    exemplar_means := []
    current_task := none
    learned_classes := []
    feature_dim := feature_dim }

/-- Python `weight_vectors[-2]`: the second-to-last element, raising
`IndexError` (here `none`) when the list has fewer than two elements. -/
def secondLast (l : List β) : Option β :=
  if 2 ≤ l.length then l.get? (l.length - 2) else none

/-- `iCaRL.set_new_task` (`model/iCaRL.py`, lines 48-71), a `@contextmanager`.
The `with`-body is `body`, a state transformer that may raise (second
component `some e`).  Steps, in source order: set `current_task`; build the
fresh `nn.Linear` head of size `len(task) + len(learned_classes)`; if a
previous head exists, slice-copy its weights into the leading rows (a torch
shape mismatch raises *before* the `try`, so the `finally` does not run and
the classes are not committed); append the head to `weight_vectors`; deep-copy
the live feature extractor into `previous_feature_extractor` (value copy in
this functional model); run the body inside `try`; in `finally`, extend
`learned_classes` by the task's classes — on normal and on raising exits
alike. -/
def set_new_task (task : List String) (init : Nat → Nat → α)
    (body : ICaRL F α → ICaRL F α × Option PyErr) (s : ICaRL F α) :
    ICaRL F α × Option PyErr :=
  let s1 := { s with current_task := some task }
  let outF := task.length + s1.learned_classes.length
  let fresh : Linear α := ⟨s1.feature_dim, outF, mkLinearWeight outF s1.feature_dim init⟩
  let s2 := { s1 with current_weight_vectors := some fresh }
  let wv? : Option (Linear α) :=
    match s2.weight_vectors.getLast? with
    | none => some fresh
    | some prev =>
      (sliceAssignRows fresh.weight prev.weight s2.learned_classes.length).map
        fun w1 => ⟨fresh.in_features, fresh.out_features, w1⟩
  match wv? with
  | none => (s2, some PyErr.runtimeError)
  | some wv =>
    let s3 := { s2 with current_weight_vectors := some wv
                        weight_vectors := s2.weight_vectors ++ [wv]
                        previous_feature_extractor := s2.feature_extractor }
    let r := body s3
    ({ r.1 with learned_classes := r.1.learned_classes ++ task }, r.2)

/-- `iCaRL.use_previous_model` (`model/iCaRL.py`, lines 73-84), a
`@contextmanager`.  Saves the live extractor and head, swaps in the arguments
(defaulting to `previous_feature_extractor` and `weight_vectors[-2]`; the
latter raises `IndexError` when fewer than two heads exist — note the
extractor swap on the previous source line has already happened then), runs
the body inside `try`, and in `finally` restores both saved objects whatever
the exit path was. -/
def use_previous_model (fe? : Option F) (wv? : Option (Linear α))
    (body : ICaRL F α → ICaRL F α × Option PyErr) (s : ICaRL F α) :
    ICaRL F α × Option PyErr :=
  let s1 := { s with feature_extractor :=
                match fe? with
                | some f => some f
                | none => s.previous_feature_extractor }
  let inner : ICaRL F α × Option PyErr :=
    match wv? with
    | some w => body { s1 with current_weight_vectors := some w }
    | none =>
      match secondLast s1.weight_vectors with
      | some w => body { s1 with current_weight_vectors := some w }
      | none => (s1, some PyErr.indexError)
  ({ inner.1 with feature_extractor := s.feature_extractor
                  current_weight_vectors := s.current_weight_vectors }, inner.2)

/-- C2: for every invocation of the `use_previous_model` scoped swap — whatever
the optional override arguments are, and whether the wrapped computation exits
normally or raises at any point (including the `IndexError` raised while
installing the default previous head) — the model's active feature extractor
and active weight vector after scope exit are exactly the objects that were
active immediately before the scope began. -/
theorem use_previous_model_restores_state (fe? : Option F) (wv? : Option (Linear α))
    (body : ICaRL F α → ICaRL F α × Option PyErr) (s : ICaRL F α) :
    ((use_previous_model fe? wv? body s).1.feature_extractor = s.feature_extractor) ∧
      ((use_previous_model fe? wv? body s).1.current_weight_vectors
        = s.current_weight_vectors) := by
  unfold use_previous_model
  exact ⟨rfl, rfl⟩

/-- One swap `x[i], x[j] = x[j], x[i]` on a Python list; out-of-range indices
cannot occur in the shuffle below, but the embedding is total and leaves the
list unchanged in that case. -/
def listSwap (l : List α) (i j : Nat) : List α :=
  match l[i]?, l[j]? with
  | some a, some b => (l.set i b).set j a
  | _, _ => l

/-- CPython's `random.shuffle` (Fisher-Yates): for `i` from `len-1` down to
`1`, draw `j` uniformly in `[0, i]` and swap positions `i` and `j`.  The RNG is
modelled by `rand`, giving the raw draw for each `i`; `% (i+1)` keeps it in
range, as `_randbelow(i+1)` does. -/
def pyShuffleAux (rand : Nat → Nat) : Nat → List α → List α
  | 0, l => l
  | i + 1, l => pyShuffleAux rand i (listSwap l (i + 1) (rand (i + 1) % (i + 2)))

/-- `random.shuffle(l)`: the content of the list after the in-place shuffle. -/
def pyShuffle (rand : Nat → Nat) (l : List α) : List α :=
  pyShuffleAux rand (l.length - 1) l

theorem get_cons_set_perm (x : α) : ∀ (ys : List α) (s : Nat) (h : s < ys.length),
    (ys[s] :: ys.set s x).Perm (x :: ys) := by
  intro ys
  induction ys with
  | nil => intro s h; simp at h
  | cons y ys ih =>
    intro s h
    cases s with
    | zero =>
      simp only [List.getElem_cons_zero, List.set_cons_zero]
      exact List.Perm.swap x y ys
    | succ s =>
      have hs : s < ys.length := by simpa using h
      simp only [List.getElem_cons_succ, List.set_cons_succ]
      have h1 : (ys[s] :: y :: ys.set s x).Perm (y :: ys[s] :: ys.set s x) :=
        List.Perm.swap y (ys[s]) (ys.set s x)
      have h2 : (y :: ys[s] :: ys.set s x).Perm (y :: x :: ys) := (ih s hs).cons y
      have h3 : (y :: x :: ys).Perm (x :: y :: ys) := List.Perm.swap x y ys
      exact h1.trans (h2.trans h3)

theorem listSwap_cons_succ (y : α) (ys : List α) (s t : Nat) :
    listSwap (y :: ys) (s + 1) (t + 1) = y :: listSwap ys s t := by
  unfold listSwap
  cases hs : ys[s]? <;> cases ht : ys[t]? <;>
    simp [List.getElem?_cons_succ, hs, ht, List.set_cons_succ]

theorem listSwap_perm : ∀ (l : List α) (i j : Nat), (listSwap l i j).Perm l := by
  intro l
  induction l with
  | nil => intro i j; simp [listSwap]
  | cons y ys ih =>
    intro i j
    match i, j with
    | 0, 0 =>
      simp [listSwap]
    | 0, t + 1 =>
      cases ht : ys[t]? with
      | none => simp [listSwap, List.getElem?_cons_succ, ht]
      | some b =>
        have htl : t < ys.length := by
          by_contra hc
          rw [List.getElem?_eq_none (by omega)] at ht
          exact Option.noConfusion ht
        have hb : ys[t] = b := by
          have := List.getElem?_eq_getElem htl
          rw [ht] at this
          exact (Option.some.injEq _ _).mp this.symm
        have : listSwap (y :: ys) 0 (t + 1) = ys[t] :: ys.set t y := by
          simp [listSwap, List.getElem?_cons_succ, ht, List.set_cons_zero,
            List.set_cons_succ, hb]
        rw [this]
        exact get_cons_set_perm y ys t htl
    | s + 1, 0 =>
      cases hs : ys[s]? with
      | none => simp [listSwap, List.getElem?_cons_succ, hs]
      | some a =>
        have hsl : s < ys.length := by
          by_contra hc
          rw [List.getElem?_eq_none (by omega)] at hs
          exact Option.noConfusion hs
        have ha : ys[s] = a := by
          have := List.getElem?_eq_getElem hsl
          rw [hs] at this
          exact (Option.some.injEq _ _).mp this.symm
        have : listSwap (y :: ys) (s + 1) 0 = ys[s] :: ys.set s y := by
          simp [listSwap, List.getElem?_cons_succ, hs, List.set_cons_zero,
            List.set_cons_succ, ha]
        rw [this]
        exact get_cons_set_perm y ys s hsl
    | s + 1, t + 1 =>
      rw [listSwap_cons_succ]
      exact (ih s t).cons y

theorem pyShuffleAux_perm (rand : Nat → Nat) :
    ∀ (i : Nat) (l : List α), (pyShuffleAux rand i l).Perm l := by
  intro i
  induction i with
  | zero => intro l; exact List.Perm.refl l
  | succ i ih =>
    intro l
    exact (ih _).trans (listSwap_perm l (i + 1) (rand (i + 1) % (i + 2)))

theorem pyShuffle_perm (rand : Nat → Nat) (l : List α) :
    (pyShuffle rand l).Perm l :=
  pyShuffleAux_perm rand (l.length - 1) l

theorem pyShuffle_length (rand : Nat → Nat) (l : List α) :
    (pyShuffle rand l).length = l.length :=
  (pyShuffle_perm rand l).length_eq

/-- The hard-coded canonical CIFAR-100 partition returned for
`fixed_tasks=True` (`utils/data/cifar100.py`, line 71). -/
def fixed_cifar100_tasks : List (List String) :=
  [["apple", "aquarium_fish", "baby", "bear", "beaver", "bed", "bee", "beetle", "bicycle", "bottle"],
   ["bowl", "boy", "bridge", "bus", "butterfly", "camel", "can", "castle", "caterpillar", "cattle"],
   ["chair", "chimpanzee", "clock", "cloud", "cockroach", "couch", "crab", "crocodile", "cup", "dinosaur"],
   ["dolphin", "elephant", "flatfish", "forest", "fox", "girl", "hamster", "house", "kangaroo", "keyboard"],
   ["lamp", "lawn_mower", "leopard", "lion", "lizard", "lobster", "man", "maple_tree", "motorcycle", "mountain"],
   ["mouse", "mushroom", "oak_tree", "orange", "orchid", "otter", "palm_tree", "pear", "pickup_truck", "pine_tree"],
   ["plain", "plate", "poppy", "porcupine", "possum", "rabbit", "raccoon", "ray", "road", "rocket"],
   ["rose", "sea", "seal", "shark", "shrew", "skunk", "skyscraper", "snail", "snake", "spider"],
   ["squirrel", "streetcar", "sunflower", "sweet_pepper", "table", "tank", "telephone", "television", "tiger", "tractor"],
   ["train", "trout", "tulip", "turtle", "wardrobe", "whale", "willow_tree", "wolf", "woman", "worm"]]

/-- `get_cifar100_tasks` (`utils/data/cifar100.py`, lines 69-77).  For
`fixed_tasks=True` it returns the canonical partition; otherwise it shuffles
`cls_names` in place (`random.shuffle`) and slices the shuffled list into
`len(cls_names) // task_num` contiguous chunks of the *hard-coded* width 10
(`cls_names[i * 10 : (i + 1) * 10]`).  The function performs no divisibility
check.  The embedding's first component is the returned task list; the second
is the content of the caller's `cls_names` list after the call (the in-place
mutation effect). -/
def get_cifar100_tasks (cls_names : List String) (rand : Nat → Nat)
    (task_num : Nat) (fixed_tasks : Bool) : List (List String) × List String :=
  if fixed_tasks then
    (fixed_cifar100_tasks, cls_names)
  else
    let shuffled := pyShuffle rand cls_names
    ((List.range (shuffled.length / task_num)).map fun i =>
        (shuffled.drop (i * 10)).take 10,
      shuffled)

/-- C3 fails on the code: with a class universe of size C = 4 and task count
T = 2 (so C % T == 0), the randomized partition returns groups of sizes 4 and
0 — not 2 disjoint groups of size C/T = 2 — for every possible shuffle,
because the slice width is hard-coded to 10.  This evaluates the code at the
failing input. -/
theorem get_cifar100_tasks_wrong_sizes_at_4_2 (rand : Nat → Nat) :
    ((get_cifar100_tasks ["a", "b", "c", "d"] rand 2 false).1).map List.length
      = [4, 0] := by
  have hlen : (pyShuffle rand ["a", "b", "c", "d"]).length = 4 := by
    rw [pyShuffle_length]; rfl
  simp only [get_cifar100_tasks, Bool.false_eq_true, if_false, hlen]
  norm_num [List.range_succ, List.length_take, List.length_drop, hlen]

/-- C4 fails on the code: with C = 3 classes and T = 2 tasks (C % T ≠ 0),
`get_cifar100_tasks` does not fail with a configuration error — it has no
divisibility check at all — but returns normally, producing a single group
holding all 3 classes, for every possible shuffle. -/
theorem get_cifar100_tasks_no_divisibility_check (rand : Nat → Nat) :
    ((get_cifar100_tasks ["a", "b", "c"] rand 2 false).1).map List.length
      = [3] := by
  have hlen : (pyShuffle rand ["a", "b", "c"]).length = 3 := by
    rw [pyShuffle_length]; rfl
  simp only [get_cifar100_tasks, Bool.false_eq_true, if_false, hlen]
  norm_num [List.range_succ, List.length_take, List.length_drop, hlen]

/-- C10: a call with `fixed_tasks=False` shuffles the caller's `cls_names`
list in place: afterwards the argument holds a permutation of its original
content (first conjunct, for every RNG and input), and it is in general
actually reordered rather than left unchanged (second conjunct: a concrete
run where the post-call content differs from the original). -/
theorem get_cifar100_tasks_mutates_cls_names :
    (∀ (rand : Nat → Nat) (cls_names : List String) (task_num : Nat),
        ((get_cifar100_tasks cls_names rand task_num false).2).Perm cls_names) ∧
      (get_cifar100_tasks ["a", "b"] (fun _ => 0) 1 false).2 ≠ ["a", "b"] := by
  constructor
  · intro rand cls_names task_num
    simpa [get_cifar100_tasks] using pyShuffle_perm rand cls_names
  · decide

theorem mkLinearWeight_length (o i : Nat) (f : Nat → Nat → α) :
    (mkLinearWeight o i f).length = o := by
  simp [mkLinearWeight]

theorem mkLinearWeight_map_length (o i : Nat) (f : Nat → Nat → α) :
    (mkLinearWeight o i f).map List.length = List.replicate o i := by
  simp [mkLinearWeight, List.map_map, Function.comp_def, List.map_const']

/-- The slice copy `current.weight.data[:k, :] = previous.weight.data[:, :]`
performed by `set_new_task` succeeds whenever the previous head has exactly
`k` rows of the current feature width — the run invariant. -/
theorem prev_copy_succeeds (task_len k fdim : Nat) (init : Nat → Nat → α)
    (src : List (List α)) (hk : src.length = k) (hw : ∀ r ∈ src, r.length = fdim) :
    sliceAssignRows (mkLinearWeight (task_len + k) fdim init) src k
      = some (src ++ (mkLinearWeight (task_len + k) fdim init).drop k) := by
  have hmin : min k (mkLinearWeight (task_len + k) fdim init).length = k := by
    rw [mkLinearWeight_length]; omega
  have hsrc : src.map List.length = List.replicate k fdim := by
    have hmem : ∀ b ∈ src.map List.length, b = fdim := by
      intro b hb
      rcases List.mem_map.mp hb with ⟨r, hr, rfl⟩
      exact hw r hr
    have := List.eq_replicate_of_mem hmem
    simpa [hk] using this
  have htake : ((mkLinearWeight (task_len + k) fdim init).take k).map List.length
      = List.replicate k fdim := by
    rw [List.map_take, mkLinearWeight_map_length, List.take_replicate,
      Nat.min_eq_left (by omega)]
  unfold sliceAssignRows
  rw [hmin, if_pos ⟨hk, hsrc.trans htake.symm⟩]

/-- C5: for every execution of the `set_new_task` scope whose head creation
succeeds (the previous head has the run-invariant shape — vacuous on the first
task), and whatever the body does short of touching `learned_classes`
(training code never does) and however it exits — normally or raising — the
task's classes are appended to `learned_classes` exactly once; and when the
task is duplicate-free and disjoint from the classes learned so far, the
resulting `learned_classes` still has no duplicates. -/
theorem set_new_task_commits_classes_once (task : List String) (init : Nat → Nat → α)
    (body : ICaRL F α → ICaRL F α × Option PyErr) (s : ICaRL F α)
    (hbody : ∀ t, (body t).1.learned_classes = t.learned_classes)
    (hshape : ∀ prev, s.weight_vectors.getLast? = some prev →
        prev.weight.length = s.learned_classes.length ∧
          ∀ r ∈ prev.weight, r.length = s.feature_dim) :
    (set_new_task task init body s).1.learned_classes = s.learned_classes ++ task ∧
      (task.Nodup → s.learned_classes.Nodup → (∀ c ∈ task, c ∉ s.learned_classes) →
        (set_new_task task init body s).1.learned_classes.Nodup) := by
  have heq : (set_new_task task init body s).1.learned_classes
      = s.learned_classes ++ task := by
    unfold set_new_task
    cases hlast : s.weight_vectors.getLast? with
    | none =>
      simp only [hlast]
      simp [hbody]
    | some prev =>
      obtain ⟨hk, hw⟩ := hshape prev hlast
      simp only [hlast,
        prev_copy_succeeds task.length s.learned_classes.length s.feature_dim init
          prev.weight hk hw,
        Option.map_some]
      simp [hbody]
  refine ⟨heq, fun ht hl hdisj => ?_⟩
  rw [heq]
  exact hl.append ht fun a ha hb => hdisj a hb ha

/-- C5 witness: a concrete first-task run through `set_new_task` appends the
task's classes exactly once and keeps `learned_classes` duplicate-free. -/
theorem set_new_task_commits_classes_once_witness :
    (set_new_task ["a", "b"] (fun _ _ => (0 : Int)) (fun t => (t, none))
          (ICaRL.init () 2)).1.learned_classes
        = ([] : List String) ++ ["a", "b"] ∧
      (["a", "b"].Nodup → ([] : List String).Nodup →
        (∀ c ∈ ["a", "b"], c ∉ ([] : List String)) →
        (set_new_task ["a", "b"] (fun _ _ => (0 : Int)) (fun t => (t, none))
            (ICaRL.init () 2)).1.learned_classes.Nodup) := by
  have h := set_new_task_commits_classes_once (F := Unit) ["a", "b"]
    (fun _ _ => (0 : Int)) (fun t => (t, none)) (ICaRL.init () 2)
    (fun t => rfl)
    (by intro prev hp; simp [ICaRL.init] at hp)
  simpa [ICaRL.init] using h

/-- C6: when `set_new_task` is called after at least one task has been learned
(a last head `prev` exists, with the run-invariant shape: one row per learned
class, rows of the current feature width), and the body does not touch
`weight_vectors` (training code never does), the newly created and appended
weight vector has output dimension `len(task) + len(learned_classes)` and its
leading rows — those covering the previously learned classes — are exactly the
rows of the previous weight vector (warm start). -/
theorem set_new_task_warm_start (task : List String) (init : Nat → Nat → α)
    (body : ICaRL F α → ICaRL F α × Option PyErr) (s : ICaRL F α) (prev : Linear α)
    (hlast : s.weight_vectors.getLast? = some prev)
    (hk : prev.weight.length = s.learned_classes.length)
    (hw : ∀ r ∈ prev.weight, r.length = s.feature_dim)
    (hbody : ∀ t, (body t).1.weight_vectors = t.weight_vectors) :
    ∃ wv : Linear α,
      (set_new_task task init body s).1.weight_vectors.getLast? = some wv ∧
        wv.out_features = task.length + s.learned_classes.length ∧
        wv.weight.length = task.length + s.learned_classes.length ∧
        wv.weight.take s.learned_classes.length = prev.weight := by
  refine ⟨⟨s.feature_dim, task.length + s.learned_classes.length,
      prev.weight ++ (mkLinearWeight (task.length + s.learned_classes.length)
        s.feature_dim init).drop s.learned_classes.length⟩, ?_, rfl, ?_, ?_⟩
  · unfold set_new_task
    simp only [hlast,
      prev_copy_succeeds task.length s.learned_classes.length s.feature_dim init
        prev.weight hk hw,
      Option.map_some]
    simp [hbody, List.getLast?_concat]
  · have hd : ((mkLinearWeight (task.length + s.learned_classes.length)
        s.feature_dim init).drop s.learned_classes.length).length
        = task.length := by
      rw [List.length_drop, mkLinearWeight_length]; omega
    simp only [List.length_append, hk, hd]
    omega
  · exact List.take_left' hk

/-- C6 witness: a concrete second-task call; the new head has 2 = 1 + 1 output
rows and its first row is the previous head's row. -/
theorem set_new_task_warm_start_witness :
    ∃ wv : Linear Int,
      (set_new_task ["b"] (fun _ _ => (0 : Int)) (fun t => (t, none))
          { feature_extractor := some ()
            previous_feature_extractor := none
            weight_vectors := [⟨2, 1, [[5, 7]]⟩]
            current_weight_vectors := none
            exemplar_means := []
            current_task := none
            learned_classes := ["a"]
            feature_dim := 2 }).1.weight_vectors.getLast? = some wv ∧
        wv.out_features = ["b"].length + ["a"].length ∧
        wv.weight.length = ["b"].length + ["a"].length ∧
        wv.weight.take ["a"].length = [[5, 7]] :=
  set_new_task_warm_start (F := Unit) ["b"] (fun _ _ => (0 : Int))
    (fun t => (t, none))
    { feature_extractor := some ()
      previous_feature_extractor := none
      weight_vectors := [⟨2, 1, [[5, 7]]⟩]
      current_weight_vectors := none
      exemplar_means := []
      current_task := none
      learned_classes := ["a"]
      feature_dim := 2 }
    ⟨2, 1, [[5, 7]]⟩ rfl (by decide) (by decide) (fun t => rfl)

/-- The scan behind `torch.argmin` along one row: index and value of the best
candidate so far; a strictly smaller value updates them, so the first minimal
entry wins. -/
def argminFirstAux : List ℚ → Nat → Nat → ℚ → Nat
  | [], _, best, _ => best
  | x :: xs, idx, best, bestVal =>
    if x < bestVal then argminFirstAux xs (idx + 1) idx x
    else argminFirstAux xs (idx + 1) best bestVal

/-- `torch.argmin(dim=1)` applied to one row of distances: the index of the
first minimal entry (torch documents first-occurrence tie-breaking). -/
def argminFirst : List ℚ → Nat
  | [] => 0
  | x :: xs => argminFirstAux xs 1 0 x

/-- Squared Euclidean distance of two feature vectors.  The source computes
`(features - cls_means).norm(p=2, dim=2)` and then `argmin`; since the square
root is strictly monotone on nonnegative reals, the argmin of those norms is
the argmin of the squared norms, which this exact embedding computes — the
claim's theorem below re-states the conclusion in terms of the real Euclidean
distances `Real.sqrt (sqdist ..)`. -/
def sqdist (x y : List ℚ) : ℚ :=
  ((x.zip y).map fun p => (p.1 - p.2) * (p.1 - p.2)).sum

/-- `iCaRL.get_preds` (`model/iCaRL.py`, lines 104-132).  `features` are the
L2-normalized embeddings of the input batch (the convolutional backbone and
the float normalisation on line 119 are upstream of this claim); the
prototypes are `self.exemplar_means.values()` in dict insertion order.  The
`torch.cat` of an empty prototype list raises, modelled by `none`.  Per
example the result is the argmin (first minimal index) over the per-prototype
Euclidean distances. -/
def get_preds (s : ICaRL F α) (features : List (List ℚ)) : Option (List Nat) :=
  let cls_means := s.exemplar_means.map Prod.snd
  if cls_means.isEmpty then none
  else some (features.map fun f => argminFirst (cls_means.map fun m => sqdist f m))

/-- `r` is the first index of a minimal entry of `l`. -/
def isFirstMinIdx (l : List ℚ) (r : Nat) : Prop :=
  r < l.length ∧ (∀ j < l.length, l.getD r 0 ≤ l.getD j 0) ∧
    ∀ j < r, l.getD r 0 < l.getD j 0

theorem getD_map_lt (g : α → β) (l : List α) (n : Nat) (h : n < l.length)
    (d : β) (d' : α) : (l.map g).getD n d = g (l.getD n d') := by
  rw [List.getD_eq_getElem _ _ (by simpa using h), List.getD_eq_getElem _ _ h,
    List.getElem_map]

theorem argminFirstAux_spec (xs : List ℚ) :
    ∀ (pre : List ℚ) (best : Nat) (bestVal : ℚ),
      best < pre.length → pre.getD best 0 = bestVal →
      (∀ j < pre.length, bestVal ≤ pre.getD j 0) →
      (∀ j < best, bestVal < pre.getD j 0) →
      isFirstMinIdx (pre ++ xs) (argminFirstAux xs pre.length best bestVal) := by
  induction xs with
  | nil =>
    intro pre best bestVal hb hv hmin hstrict
    unfold argminFirstAux
    rw [List.append_nil]
    exact ⟨hb, fun j hj => hv ▸ hmin j hj, fun j hj => hv ▸ hstrict j hj⟩
  | cons x xs ih =>
    intro pre best bestVal hb hv hmin hstrict
    have hassoc : pre ++ x :: xs = (pre ++ [x]) ++ xs := by simp
    have hgx : (pre ++ [x]).getD pre.length 0 = x := by
      rw [List.getD_eq_getElem _ _ (by simp)]
      simp
    have hleft : ∀ j, j < pre.length → (pre ++ [x]).getD j 0 = pre.getD j 0 := by
      intro j hj
      rw [List.getD_eq_getElem _ _ (by simp; omega), List.getD_eq_getElem _ _ hj,
        List.getElem_append_left hj]
    rw [hassoc]
    by_cases hx : x < bestVal
    · have h1 : pre.length < (pre ++ [x]).length := by simp
      have h2 : ∀ j < (pre ++ [x]).length, x ≤ (pre ++ [x]).getD j 0 := by
        intro j hj
        have hj' : j < pre.length ∨ j = pre.length := by
          simp only [List.length_append, List.length_cons, List.length_nil] at hj
          omega
        rcases hj' with hj' | rfl
        · rw [hleft j hj']
          exact le_of_lt (lt_of_lt_of_le hx (hmin j hj'))
        · rw [hgx]
      have h3 : ∀ j < pre.length, x < (pre ++ [x]).getD j 0 := by
        intro j hj
        rw [hleft j hj]
        exact lt_of_lt_of_le hx (hmin j hj)
      have := ih (pre ++ [x]) pre.length x h1 hgx h2 h3
      have hlen : (pre ++ [x]).length = pre.length + 1 := by simp
      rw [hlen] at this
      unfold argminFirstAux
      rw [if_pos hx]
      exact this
    · have hbx : bestVal ≤ x := le_of_not_lt hx
      have h1 : best < (pre ++ [x]).length := by simp; omega
      have h2 : (pre ++ [x]).getD best 0 = bestVal := by rw [hleft best hb]; exact hv
      have h3 : ∀ j < (pre ++ [x]).length, bestVal ≤ (pre ++ [x]).getD j 0 := by
        intro j hj
        have hj' : j < pre.length ∨ j = pre.length := by
          simp only [List.length_append, List.length_cons, List.length_nil] at hj
          omega
        rcases hj' with hj' | rfl
        · rw [hleft j hj']
          exact hmin j hj'
        · rw [hgx]
          exact hbx
      have h4 : ∀ j < best, bestVal < (pre ++ [x]).getD j 0 := by
        intro j hj
        rw [hleft j (lt_trans hj hb)]
        exact hstrict j hj
      have := ih (pre ++ [x]) best bestVal h1 h2 h3 h4
      have hlen : (pre ++ [x]).length = pre.length + 1 := by simp
      rw [hlen] at this
      unfold argminFirstAux
      rw [if_neg hx]
      exact this

theorem argminFirst_spec (l : List ℚ) (hne : l ≠ []) :
    isFirstMinIdx l (argminFirst l) := by
  match l with
  | [] => exact absurd rfl hne
  | x :: xs =>
    have := argminFirstAux_spec xs [x] 0 x (by simp) (by simp)
      (by intro j hj; simp only [List.length_cons, List.length_nil] at hj
          have hj0 : j = 0 := by omega
          subst hj0; simp)
      (by intro j hj; omega)
    simpa [argminFirst] using this

theorem sqdist_nonneg (x y : List ℚ) : 0 ≤ sqdist x y := by
  apply List.sum_nonneg
  intro q hq
  rcases List.mem_map.mp hq with ⟨p, _, rfl⟩
  exact mul_self_nonneg _

/-- C7: whenever the stored exemplar-mean prototypes are non-empty,
`get_preds` succeeds and returns, for each example, an in-range prototype
index whose real Euclidean distance to the example's (L2-normalized) embedding
is minimal among all prototypes, with ties resolved in favour of the lowest
prototype index (every strictly lower index is at strictly greater
distance). -/
theorem get_preds_nearest_prototype (s : ICaRL F α) (features : List (List ℚ))
    (hne : s.exemplar_means ≠ []) :
    ∃ preds : List Nat,
      get_preds s features = some preds ∧
        preds.length = features.length ∧
        ∀ b, b < features.length →
          preds.getD b 0 < (s.exemplar_means.map Prod.snd).length ∧
            (∀ j, j < (s.exemplar_means.map Prod.snd).length →
              Real.sqrt (sqdist (features.getD b [])
                  ((s.exemplar_means.map Prod.snd).getD (preds.getD b 0) []))
                ≤ Real.sqrt (sqdist (features.getD b [])
                  ((s.exemplar_means.map Prod.snd).getD j []))) ∧
            ∀ j, j < preds.getD b 0 →
              Real.sqrt (sqdist (features.getD b [])
                  ((s.exemplar_means.map Prod.snd).getD (preds.getD b 0) []))
                < Real.sqrt (sqdist (features.getD b [])
                  ((s.exemplar_means.map Prod.snd).getD j [])) := by
  set means := s.exemplar_means.map Prod.snd with hmeans
  have hmne : means ≠ [] := by
    simp [hmeans, hne]
  refine ⟨features.map fun f => argminFirst (means.map fun m => sqdist f m), ?_, by simp, ?_⟩
  · unfold get_preds
    rw [if_neg (by simpa [List.isEmpty_iff] using hne), hmeans]
  · intro b hb
    set f := features.getD b [] with hf
    have hgb : (features.map fun f => argminFirst (means.map fun m => sqdist f m)).getD b 0
        = argminFirst (means.map fun m => sqdist f m) := by
      rw [getD_map_lt _ _ _ hb _ []]
    rw [hgb]
    set dl := means.map fun m => sqdist f m with hdl
    have hdlne : dl ≠ [] := by
      simp [hdl, hmne]
    obtain ⟨hlt, hmin, hstrict⟩ := argminFirst_spec dl hdlne
    have hdllen : dl.length = means.length := by simp [hdl]
    have hdget : ∀ j, j < means.length → dl.getD j 0 = sqdist f (means.getD j []) := by
      intro j hj
      rw [hdl, getD_map_lt _ _ _ hj _ []]
    rw [hdllen] at hlt hmin
    refine ⟨hlt, ?_, ?_⟩
    · intro j hj
      have h := hmin j hj
      rw [hdget _ hlt, hdget _ hj] at h
      exact Real.sqrt_le_sqrt (by exact_mod_cast h)
    · intro j hj
      have h := hstrict j hj
      rw [hdget _ hlt, hdget _ (lt_trans hj hlt)] at h
      exact Real.sqrt_lt_sqrt
        (by exact_mod_cast sqdist_nonneg f (means.getD (argminFirst dl) []))
        (by exact_mod_cast h)

/-- A concrete two-prototype model state used to witness the nearest-prototype
claim. -/
def nearestProtoModel : ICaRL Unit Int :=
  { feature_extractor := some ()
    previous_feature_extractor := none
    weight_vectors := []
    current_weight_vectors := none
    exemplar_means := [("a", [0, 0]), ("b", [1, 0])]
    current_task := none
    learned_classes := []
    feature_dim := 2 }

/-- C7 witness: with two stored prototypes and one query embedding,
`get_preds` succeeds and the returned index is distance-minimal with the
lowest-index tie-break. -/
theorem get_preds_nearest_prototype_witness :
    ∃ preds : List Nat,
      get_preds nearestProtoModel [[1, 0]] = some preds ∧
        preds.length = [[(1 : ℚ), 0]].length ∧
        ∀ b, b < [[(1 : ℚ), 0]].length →
          preds.getD b 0 < (nearestProtoModel.exemplar_means.map Prod.snd).length ∧
            (∀ j, j < (nearestProtoModel.exemplar_means.map Prod.snd).length →
              Real.sqrt (sqdist ([[(1 : ℚ), 0]].getD b [])
                  ((nearestProtoModel.exemplar_means.map Prod.snd).getD (preds.getD b 0) []))
                ≤ Real.sqrt (sqdist ([[(1 : ℚ), 0]].getD b [])
                  ((nearestProtoModel.exemplar_means.map Prod.snd).getD j []))) ∧
            ∀ j, j < preds.getD b 0 →
              Real.sqrt (sqdist ([[(1 : ℚ), 0]].getD b [])
                  ((nearestProtoModel.exemplar_means.map Prod.snd).getD (preds.getD b 0) []))
                < Real.sqrt (sqdist ([[(1 : ℚ), 0]].getD b [])
                  ((nearestProtoModel.exemplar_means.map Prod.snd).getD j [])) :=
  get_preds_nearest_prototype nearestProtoModel [[1, 0]] (by decide)

/-- The external metrics/logging sink exactly as the evaluator in
`src/main.py` uses it: the logger's per-task info line (task index, matrix
entry, the task's classes — the pieces interpolated into the f-string), the
tensorboard `add_scalar` (tag, value, global step) and `add_figure` (the
`cl_matrix` to render and the step).  Every call may raise; `L` is the opaque
type of data loaders, which the evaluator only enumerates. -/
structure Sink (L : Type) : Type where
  logInfo : Nat → ℚ → List String → Except PyErr Unit
  addScalar : String → ℚ → Nat → Except PyErr Unit
  addFigure : List (List ℚ) → Nat → Except PyErr Unit

/-- `cl_matrix[i, j]` read (with out-of-range access handled by the caller). -/
def mget (M : List (List ℚ)) (i j : Nat) : ℚ := (M.getD i []).getD j 0

/-- Average of a list of scalars; `numpy.mean` of an empty slice would warn
and give NaN, but the metrics below are only reached with `n ≥ 2`, where every
averaged list is non-empty. -/
def listAvg (l : List ℚ) : ℚ := if l.length = 0 then 0 else l.sum / l.length

/-- Modelled from the spec: `get_backward_transfer` lives in
`utils/helper.py`, which is not under src/.  §4.5: average over evaluation
tasks i < n−1 of (M[i, n−1] − M[i, i]). -/
def get_backward_transfer (M : List (List ℚ)) : ℚ :=
  listAvg ((List.range (M.length - 1)).map fun i => mget M i (M.length - 1) - mget M i i)

/-- Modelled from the spec: `get_forgetting_rate` lives in `utils/helper.py`,
which is not under src/.  §4.5: average over i < n−1 of (max over j in
[i, n−1) of M[i,j], minus M[i, n−1]). -/
def get_forgetting_rate (M : List (List ℚ)) : ℚ :=
  listAvg ((List.range (M.length - 1)).map fun i =>
    (((List.range' i (M.length - 1 - i)).map fun j => mget M i j).foldr max 0)
      - mget M i (M.length - 1))

/-- Modelled from the spec: `get_last_setp_accuracy` (sic) lives in
`utils/helper.py`, which is not under src/.  §4.5: mean of the final column
M[:, n−1]. -/
def get_last_setp_accuracy (M : List (List ℚ)) : ℚ :=
  listAvg ((List.range M.length).map fun i => mget M i (M.length - 1))

/-- Modelled from the spec: `get_average_incremental_accuracy` lives in
`utils/helper.py`, which is not under src/.  §4.5: mean over each step j of
the mean of column j restricted to rows 0..j. -/
def get_average_incremental_accuracy (M : List (List ℚ)) : ℚ :=
  listAvg ((List.range M.length).map fun j =>
    listAvg ((List.range (j + 1)).map fun i => mget M i j))

/-- `cl_matrix[:n, :n]`. -/
def submatrix (M : List (List ℚ)) (n : Nat) : List (List ℚ) :=
  (M.take n).map fun row => row.take n

/-- The evaluator's per-task loop (`src/main.py`, lines 123-131): for each
learned loader, the active code only logs — the two evaluation statements are
commented out in the source, so nothing is written to `cl_matrix`.  The
f-string reads `cl_matrix[i, task_id]` and `learned_tasks[i]` (either read
raises `IndexError` when out of range) and then calls `logger.info`, which
itself may raise. -/
def testLogLoop (sink : Sink L) (cl_matrix : List (List ℚ)) (task_id : Nat)
    (learned_tasks : List (List String)) : Nat → List L → Except PyErr Unit
  | _, [] => Except.ok ()
  | i, _ :: rest =>
    match cl_matrix[i]? with
    | none => Except.error PyErr.indexError
    | some row =>
      match row[task_id]? with
      | none => Except.error PyErr.indexError
      | some entry =>
        match learned_tasks[i]? with
        | none => Except.error PyErr.indexError
        | some tsk =>
          match sink.logInfo i entry tsk with
          | Except.error e => Except.error e
          | Except.ok _ => testLogLoop sink cl_matrix task_id learned_tasks (i + 1) rest

/-- The metrics block of the evaluator (`src/main.py`, lines 134-159): for
`task_id ≥ 1`, slice the `(task_id+1) × (task_id+1)` submatrix, compute the
four scalar metrics and push each to the sink in source order; for
`task_id = 0` do nothing and report no metrics. -/
def log_cl_metrics (sink : Sink L) (cl_matrix : List (List ℚ)) (task_id : Nat) :
    Except PyErr (Option (List (String × ℚ))) :=
  if 1 ≤ task_id then
    let current := submatrix cl_matrix (task_id + 1)
    let bwt := get_backward_transfer current
    match sink.addScalar "continual-learning-metrics/backward-transfer" bwt task_id with
    | Except.error e => Except.error e
    | Except.ok _ =>
      let forget := get_forgetting_rate current
      match sink.addScalar "continual-learning-metrics/forgetting-rate" forget task_id with
      | Except.error e => Except.error e
      | Except.ok _ =>
        let last := get_last_setp_accuracy current
        match sink.addScalar "continual-learning-metrics/last-step-accuracy" last task_id with
        | Except.error e => Except.error e
        | Except.ok _ =>
          let avg := get_average_incremental_accuracy current
          match sink.addScalar "continual-learning-metrics/average-incremental-accuracy"
              avg task_id with
          | Except.error e => Except.error e
          | Except.ok _ =>
            Except.ok (some [("BWT", bwt), ("Forgetting Rate", forget),
              ("Last Step Acc", last), ("Average Acc", avg)])
  else
    Except.ok none

/-- `continual_learning_ability_tester` (`src/main.py`, lines 118-168): run
the per-task logging loop, then the metrics block, then render the matrix via
`add_figure`, and return the (untouched) `cl_matrix` together with the metrics
mapping — `some` for `task_id ≥ 1`, `none` for `task_id = 0`.  Any exception
along the way propagates (there is no try/except in the source). -/
def continual_learning_ability_tester (sink : Sink L) (cl_matrix : List (List ℚ))
    (task_id : Nat) (learned_tasks : List (List String)) (learned_task_loaders : List L) :
    Except PyErr (List (List ℚ) × Option (List (String × ℚ))) :=
  match testLogLoop sink cl_matrix task_id learned_tasks 0 learned_task_loaders with
  | Except.error e => Except.error e
  | Except.ok _ =>
    match log_cl_metrics sink cl_matrix task_id with
    | Except.error e => Except.error e
    | Except.ok metrics? =>
      match sink.addFigure cl_matrix task_id with
      | Except.error e => Except.error e
      | Except.ok _ => Except.ok (cl_matrix, metrics?)

theorem testLogLoop_ok (sink : Sink L) (M : List (List ℚ)) (t : Nat)
    (tasks : List (List String))
    (hlog : ∀ i e tsk, sink.logInfo i e tsk = Except.ok ()) :
    ∀ (ll : List L) (i : Nat),
      (∀ j, i ≤ j → j < i + ll.length →
        j < M.length ∧ t < (M.getD j []).length ∧ j < tasks.length) →
      testLogLoop sink M t tasks i ll = Except.ok () := by
  intro ll
  induction ll with
  | nil => intro i _; rfl
  | cons x rest ih =>
    intro i h
    obtain ⟨hiM, hit, hitask⟩ := h i (le_refl i) (by simp)
    have hrow : M[i]? = some (M.getD i []) := by
      rw [List.getElem?_eq_getElem hiM, List.getD_eq_getElem _ _ hiM]
    have hentry : (M.getD i [])[t]? = some ((M.getD i []).getD t 0) := by
      rw [List.getElem?_eq_getElem hit, List.getD_eq_getElem _ _ hit]
    have htask : tasks[i]? = some (tasks.getD i []) := by
      rw [List.getElem?_eq_getElem hitask, List.getD_eq_getElem _ _ hitask]
    simp only [testLogLoop, hrow, hentry, htask, hlog]
    exact ih (i + 1) (by
      intro j hj1 hj2
      refine h j (by omega) ?_
      simp only [List.length_cons]
      omega)

/-- C1 fails on the code: the Continual-Learning Evaluator never writes the
accuracy matrix at all — the two evaluation statements in its per-task loop
are commented out in the source — so every successful call returns the input
`cl_matrix` object unchanged.  Starting from the all-zero matrix the
orchestrator allocates, every entry `M[i, k]`, `i ≤ k`, still holds the zero
sentinel after the call, not a measured accuracy. -/
theorem tester_leaves_matrix_unwritten (sink : Sink L) (cl_matrix : List (List ℚ))
    (task_id : Nat) (learned_tasks : List (List String)) (ll : List L)
    (r : List (List ℚ) × Option (List (String × ℚ)))
    (h : continual_learning_ability_tester sink cl_matrix task_id learned_tasks ll
      = Except.ok r) :
    r.1 = cl_matrix := by
  unfold continual_learning_ability_tester at h
  cases h1 : testLogLoop sink cl_matrix task_id learned_tasks 0 ll <;> rw [h1] at h
  · simp at h
  · cases h2 : log_cl_metrics sink cl_matrix task_id <;> rw [h2] at h
    · simp at h
    · cases h3 : sink.addFigure cl_matrix task_id <;> rw [h3] at h
      · simp at h
      · simp only [Except.ok.injEq] at h
        rw [← h]

/-- C1 witness: a concrete successful evaluator call (all-ok sink, the 1×1
zero matrix, task 0) returns the matrix it was given. -/
theorem tester_leaves_matrix_unwritten_witness :
    (([[(0 : ℚ)]], (none : Option (List (String × ℚ)))) :
        List (List ℚ) × Option (List (String × ℚ))).1 = [[(0 : ℚ)]] :=
  tester_leaves_matrix_unwritten (L := Unit)
    ⟨fun _ _ _ => Except.ok (), fun _ _ _ => Except.ok (), fun _ _ => Except.ok ()⟩
    [[0]] 0 [] [] ([[0]], none) rfl

/-- C9: with a non-failing sink and in-range dimensions (as on every run:
`task_id + 1` loaders and tasks, a `task_num × task_num` matrix), the
evaluator returns, without raising, the accuracy matrix together with a
name→value metrics mapping when `task_id ≥ 1`, and the matrix with no metrics
(`None`) when `task_id = 0`. -/
theorem tester_returns_matrix_and_metrics (sink : Sink L) (M : List (List ℚ))
    (t : Nat) (tasks : List (List String)) (ll : List L)
    (hlog : ∀ i e tsk, sink.logInfo i e tsk = Except.ok ())
    (hscalar : ∀ tag v st, sink.addScalar tag v st = Except.ok ())
    (hfig : ∀ m st, sink.addFigure m st = Except.ok ())
    (hdims : ∀ j, j < ll.length →
      j < M.length ∧ t < (M.getD j []).length ∧ j < tasks.length) :
    ∃ m? : Option (List (String × ℚ)),
      continual_learning_ability_tester sink M t tasks ll = Except.ok (M, m?) ∧
        (m?.isSome ↔ 1 ≤ t) := by
  have hloop : testLogLoop sink M t tasks 0 ll = Except.ok () :=
    testLogLoop_ok sink M t tasks hlog ll 0 (fun j _ hj => hdims j (by simpa using hj))
  by_cases ht : 1 ≤ t
  · refine ⟨some [("BWT", get_backward_transfer (submatrix M (t + 1))),
      ("Forgetting Rate", get_forgetting_rate (submatrix M (t + 1))),
      ("Last Step Acc", get_last_setp_accuracy (submatrix M (t + 1))),
      ("Average Acc", get_average_incremental_accuracy (submatrix M (t + 1)))],
      ?_, by simp [ht]⟩
    have hmet : log_cl_metrics sink M t
        = Except.ok (some [("BWT", get_backward_transfer (submatrix M (t + 1))),
          ("Forgetting Rate", get_forgetting_rate (submatrix M (t + 1))),
          ("Last Step Acc", get_last_setp_accuracy (submatrix M (t + 1))),
          ("Average Acc", get_average_incremental_accuracy (submatrix M (t + 1)))]) := by
      unfold log_cl_metrics
      rw [if_pos ht]
      simp only [hscalar]
    unfold continual_learning_ability_tester
    rw [hloop, hmet, hfig]
  · refine ⟨none, ?_, by simp [ht]⟩
    have hmet : log_cl_metrics sink M t = Except.ok none := by
      unfold log_cl_metrics
      rw [if_neg ht]
    unfold continual_learning_ability_tester
    rw [hloop, hmet, hfig]

/-- C9 witness: a concrete call after the second task (`task_id = 1`, 2×2
matrix, two loaders) returns the matrix and a metrics mapping. -/
theorem tester_returns_matrix_and_metrics_witness :
    ∃ m? : Option (List (String × ℚ)),
      continual_learning_ability_tester
          (⟨fun _ _ _ => Except.ok (), fun _ _ _ => Except.ok (),
            fun _ _ => Except.ok ()⟩ : Sink Unit)
          [[0, 0], [0, 0]] 1 [["a"], ["b"]] [(), ()]
        = Except.ok ([[0, 0], [0, 0]], m?) ∧ (m?.isSome ↔ 1 ≤ 1) :=
  tester_returns_matrix_and_metrics _ _ _ _ _
    (fun _ _ _ => rfl) (fun _ _ _ => rfl) (fun _ _ => rfl) (by decide)

/-- C8 is false of the code and holds amended: nothing in the evaluator (or
anywhere in `src/main.py`) catches exceptions from the metrics/logging sink,
so a sink failure propagates out of the evaluator and aborts the run.  Here:
logger and `add_scalar` behave, `add_figure` — called on every invocation —
raises, and the raised sink error is exactly the evaluator's result. -/
theorem sink_failure_propagates_from_tester (sink : Sink L) (M : List (List ℚ))
    (t : Nat) (tasks : List (List String)) (ll : List L)
    (hlog : ∀ i e tsk, sink.logInfo i e tsk = Except.ok ())
    (hscalar : ∀ tag v st, sink.addScalar tag v st = Except.ok ())
    (hfigfail : ∀ m st, sink.addFigure m st = Except.error PyErr.sinkError)
    (hdims : ∀ j, j < ll.length →
      j < M.length ∧ t < (M.getD j []).length ∧ j < tasks.length) :
    continual_learning_ability_tester sink M t tasks ll
      = Except.error PyErr.sinkError := by
  have hloop : testLogLoop sink M t tasks 0 ll = Except.ok () :=
    testLogLoop_ok sink M t tasks hlog ll 0 (fun j _ hj => hdims j (by simpa using hj))
  have hmet : ∃ m?, log_cl_metrics sink M t = Except.ok m? := by
    by_cases ht : 1 ≤ t
    · refine ⟨some [("BWT", get_backward_transfer (submatrix M (t + 1))),
        ("Forgetting Rate", get_forgetting_rate (submatrix M (t + 1))),
        ("Last Step Acc", get_last_setp_accuracy (submatrix M (t + 1))),
        ("Average Acc", get_average_incremental_accuracy (submatrix M (t + 1)))], ?_⟩
      unfold log_cl_metrics
      rw [if_pos ht]
      simp only [hscalar]
    · refine ⟨none, ?_⟩
      unfold log_cl_metrics
      rw [if_neg ht]
  obtain ⟨m?, hmet⟩ := hmet
  unfold continual_learning_ability_tester
  rw [hloop, hmet, hfigfail]

/-- C8 counterexample: a concrete evaluator call in which the sink's
`add_figure` raises; the failure propagates out of the evaluator as the call's
outcome — refuting the claim that sink failures never propagate. -/
theorem sink_failure_aborts_tester_example :
    continual_learning_ability_tester
        (⟨fun _ _ _ => Except.ok (), fun _ _ _ => Except.ok (),
          fun _ _ => Except.error PyErr.sinkError⟩ : Sink Unit)
        [[0]] 0 [] [] = Except.error PyErr.sinkError := rfl

/-- C8 (amended) witness: concrete two-task instance of the propagation
theorem. -/
theorem sink_failure_propagates_from_tester_witness :
    continual_learning_ability_tester
        (⟨fun _ _ _ => Except.ok (), fun _ _ _ => Except.ok (),
          fun _ _ => Except.error PyErr.sinkError⟩ : Sink Unit)
        [[0, 0], [0, 0]] 1 [["a"], ["b"]] [(), ()]
      = Except.error PyErr.sinkError :=
  sink_failure_propagates_from_tester _ _ _ _ _
    (fun _ _ _ => rfl) (fun _ _ _ => rfl) (fun _ _ => rfl) (by decide)
